import Mathlib

/-!
Verification of the template GUI core of phy-contrib
(phycontrib/template/gui.py) against its specification.

The Python module is shallowly embedded: numpy arrays become nested lists
of rationals, integer indices become Int with Python index semantics, and
operations that can raise (IndexError, broadcast errors, KeyError) return
Option values, with none standing for a raised exception.
-/

set_option maxHeartbeats 1000000

set_option allowUnsafeReducibility true
attribute [local semireducible] Rat.add Rat.sub Rat.mul Rat.inv

/-- Map a partial function over a list, failing when any element fails.
This models a vectorized numpy operation that may raise on some element. -/
def mapOpt (f : α → Option β) : List α → Option (List β)
  | [] => some []
  | a :: l =>
    match f a, mapOpt f l with
    | some b, some bs => some (b :: bs)
    | _, _ => none

/-- Resolve a Python or numpy integer index against an axis of length n:
a negative index wraps once from the end, and an index that is still out
of range raises IndexError (modelled as none). -/
def pyResolve (n : Nat) (i : Int) : Option Nat :=
  let j : Int := if i < 0 then i + n else i
  if 0 ≤ j ∧ j < (n : Int) then some j.toNat else none

/-- Index a list with Python semantics for a single integer index. -/
def pyIdx (l : List α) (i : Int) : Option α :=
  match pyResolve l.length i with
  | none => none
  | some j => l[j]?

/-- Clamp a slice endpoint the way a Python slice does: a negative
endpoint counts from the end, then the result is clamped to lie between
0 and n. -/
def sliceIdx (n i : Int) : Int :=
  if i < 0 then max 0 (n + i) else min i n

/-- Floor of a rational number, computable. -/
def ratFloor (x : ℚ) : Int := Int.fdiv x.num x.den

/-- Python round-half-to-even of a rational, composed with int():
the model of int(round(x)) in the source. -/
def pyRound (x : ℚ) : Int :=
  let f : Int := ratFloor x
  let r : ℚ := x - (f : ℚ)
  if r < 1 / 2 then f
  else if 1 / 2 < r then f + 1
  else if f % 2 = 0 then f else f + 1

/-- Subtract one channel row from another.  The embedding requires the
channel counts to agree, which the numpy subtraction in the source also
requires (all callers pass arrays with a common channel axis); a
mismatch is modelled as a raised broadcast error. -/
def rowSub (r x : List ℚ) : Option (List ℚ) :=
  if r.length = x.length then some (List.zipWith (fun a b => a - b) r x) else none

/-- In-place numpy subtraction of the array x from a region of rows,
with the numpy broadcast rule on the leading axis: x must have as many
rows as the region, or exactly one row, which is then subtracted from
every row of the region.  Any other row count raises a broadcast error,
modelled as none. -/
def regionSub (region x : List (List ℚ)) : Option (List (List ℚ)) :=
  if x.length = region.length then
    mapOpt (fun p : List ℚ × List ℚ => rowSub p.1 p.2) (region.zip x)
  else if x.length = 1 then
    mapOpt (fun r => rowSub r x.headI) region
  else none

/-- Slice assignment traces[lo:hi] -= x for already clamped bounds lo
and hi: subtract x from the selected region with the numpy broadcast
rule and write the result back between the unchanged prefix and
suffix. -/
def applyRegionSub (traces : List (List ℚ)) (lo hi : Nat) (x : List (List ℚ)) :
    Option (List (List ℚ)) :=
  match regionSub ((traces.drop lo).take (hi - lo)) x with
  | none => none
  | some r => some (traces.take lo ++ r ++ traces.drop (max lo hi))

/-- Loop body of subtract_templates (gui.py lines 49 to 59) for one
spike: compute the integer sample offset t of the spike inside the
window, scale the template of the spike by its amplitude, clip the
scaled template at the buffer boundaries (an if branch for a window
start before index 0, an elif branch for a window end past the buffer
end), and subtract it in place from the slice traces[sa:sb]. -/
def subtractSpike (traces : List (List ℚ)) (start sample_rate st amp : ℚ)
    (tpl : List (List ℚ)) : Option (List (List ℚ)) :=
  let n : Int := traces.length
  let t : Int := pyRound ((st - start) * sample_rate)
  let x0 : List (List ℚ) := tpl.map (fun row => row.map (fun v => v * amp))
  let sa : Int := t - 20
  let sb : Int := t + 41
  let xab : List (List ℚ) × Int × Int :=
    if sa < 0 then (x0.drop (-sa).toNat, 0, sb)
    else if sb > n then (x0.take ((x0.length : Int) - (sb - n)).toNat, sa, n)
    else (x0, sa, sb)
  applyRegionSub traces (sliceIdx n xab.2.1).toNat (sliceIdx n xab.2.2).toNat xab.1

/-- Iteration of the subtraction over the spikes, reading the spike time
of each spike by position exactly as the source loop does (an index past
the end of the spike time array raises). -/
def subtractGo (start sample_rate : ℚ) (st : List ℚ) :
    List (ℚ × List (List ℚ)) → Nat → List (List ℚ) → Option (List (List ℚ))
  | [], _, tr => some tr
  | (amp, tpl) :: rest, i, tr =>
    (st[i]?).bind (fun sti =>
      (subtractSpike tr start sample_rate sti amp tpl).bind (fun tr2 =>
        subtractGo start sample_rate st rest (i + 1) tr2))

/-- Shallow embedding of subtract_templates (gui.py lines 36 to 60).
The source first copies the input buffer, so the embedding is a pure
function returning a new buffer.  The source also receives a
spike_clusters argument that its body never uses; it is omitted here.
The scaling of all templates by the amplitudes (line 46) requires the
amplitude and template arrays to have equal leading dimensions, which
the embedding checks up front; the loop then handles one spike at a
time, which is elementwise equivalent to scaling all spikes first. -/
def subtract_templates (traces : List (List ℚ)) (start : ℚ)
    (spike_times : List ℚ) (amplitudes : List ℚ)
    (spike_templates : List (List (List ℚ))) (sample_rate : ℚ) :
    Option (List (List ℚ)) :=
  if amplitudes.length = spike_templates.length then
    subtractGo start sample_rate spike_times (amplitudes.zip spike_templates) 0 traces
  else none

/-- Fixed registry mapping logical dataset names to filenames
(gui.py lines 75 to 89). -/
def filenames : List (String × String) :=
  [("amplitudes", "amplitudes.npy"),
   ("spike_clusters", "clusterIDs.npy"),
   ("templates", "templates.npy"),
   ("spike_samples", "spikeTimes.npy"),
   ("channel_mapping", "chanMap0ind.npy"),
   ("channel_positions_x", "xcoords.npy"),
   ("channel_positions_y", "ycoords.npy"),
   ("whitening_matrix", "whiteningMatrix.npy"),
   ("features", "pcFeatures.npy"),
   ("features_ind", "pcFeatureInds.npy"),
   ("template_features", "templateFeatures.npy"),
   ("template_features_ind", "templateFeatureInds.npy")]

/-- Model of os.path.splitext: split a filename at its last dot, the
extension keeping the dot; a name without a dot has an empty extension. -/
def splitext (fn : String) : String × String :=
  let cs := fn.toList
  let k := (cs.reverse.takeWhile (fun c => c ≠ '.')).length
  if k = cs.length then (fn, "")
  else (String.mk (cs.take (cs.length - k - 1)), String.mk (cs.drop (cs.length - k - 1)))

/-- Outcome of read_array: the file system itself is external, so the
two load paths are recorded symbolically.  unknownDataset models the
KeyError raised by the registry lookup, pyNone models the implicit
Python None returned when neither extension branch matches. -/
inductive ReadOutcome
  | unknownDataset
  | loadMat (file arrName : String)
  | loadNpy (file : String)
  | pyNone
deriving DecidableEq

/-- Lookup in a Python dictionary represented as an association list
with distinct keys; a missing key raises KeyError, modelled as none. -/
def dictGet : List (String × String) → String → Option String
  | [], _ => none
  | p :: rest, k => if k = p.1 then some p.2 else dictGet rest k

/-- Shallow embedding of read_array (gui.py lines 92 to 98): look the
name up in the registry, split the extension, and dispatch on it. -/
def read_array (name : String) : ReadOutcome :=
  match dictGet filenames name with
  | none => ReadOutcome.unknownDataset
  | some fn =>
    let p := splitext fn
    if p.2 = ".mat" then ReadOutcome.loadMat fn p.1
    else if p.2 = ".npy" then ReadOutcome.loadNpy fn
    else ReadOutcome.pyNone

/-- Per-channel peak of the absolute template waveform, the per-template
slice of the reduction m = np.abs(templates).max(axis=1) of gui.py line
104: take absolute values and fold the elementwise maximum over the time
samples.  An empty reduction axis raises in numpy, modelled by the empty
result here and by none in maskRow below. -/
def channelPeaks (tpl : List (List ℚ)) : List ℚ :=
  match tpl.map (fun r => r.map (fun v => |v|)) with
  | [] => []
  | r0 :: rs => rs.foldl (fun acc row => List.zipWith max acc row) r0

/-- One row of get_masks (gui.py lines 101 to 108): per-channel peaks
divided by the global peak of the template, with rows of zero global
peak set to zero (line 107 overwrites the invalid division results). -/
def maskRow (tpl : List (List ℚ)) : Option (List ℚ) :=
  let m := channelPeaks tpl
  if m.isEmpty then none
  else
    let mm := m.tail.foldl max m.headI
    if mm = 0 then some (m.map (fun _ => 0)) else some (m.map (fun v => v / mm))

/-- Shallow embedding of get_masks (gui.py lines 101 to 108), one mask
row per template. -/
def get_masks (templates : List (List (List ℚ))) : Option (List (List ℚ)) :=
  mapOpt maskRow templates

/-- Peak absolute value of one channel of a template over all time
samples, stated indexwise for the specification of get_masks. -/
def peakPerChannel (tpl : List (List ℚ)) (c : Nat) : ℚ :=
  (tpl.map (fun r => |r.getD c 0|)).foldl max 0

/-- Global peak absolute value of a template, the fold of gui.py line
105 over the per-channel peaks. -/
def globalPeak (tpl : List (List ℚ)) : ℚ :=
  (channelPeaks tpl).foldl max 0

/-- State of the MaskLoader object (gui.py lines 111 to 120): the
per-template mask table and the spike to cluster assignment. -/
structure MaskLoader where
  cluster_masks : List (List ℚ)
  spike_clusters : List Int

/-- MaskLoader getitem for one spike id: resolve the spike to its
cluster, then index the mask table by that cluster. -/
def MaskLoader.getItem (ml : MaskLoader) (i : Nat) : Option (List ℚ) :=
  (ml.spike_clusters[i]?).bind (fun c => pyIdx ml.cluster_masks c)

/-- MaskLoader getitem for an array of spike ids, performing the two
vectorized numpy lookups of the source in sequence. -/
def MaskLoader.getItems (ml : MaskLoader) (ids : List Nat) : Option (List (List ℚ)) :=
  (mapOpt (fun i => ml.spike_clusters[i]?) ids).bind
    (fun clus => mapOpt (fun c => pyIdx ml.cluster_masks c) clus)

/-- Transpose with axes (0, 2, 1) of the per-spike feature block of one
spike, as in gui.py line 271: the block has one row per feature and one
column per local channel, the result one row per local channel. -/
def transpose21 (block : List (List ℚ)) (nloc : Nat) : List (List ℚ) :=
  (List.range nloc).map (fun j => block.map (fun prow => prow.getD j 0))

/-- Fancy-index assignment of rows into a zero matrix for one spike,
modelling f[:, ch, :] = rows of gui.py line 271: successively write row
j at channel position ch j; as in numpy, a later duplicate index wins. -/
def scatterRows (zeros : List (List ℚ)) (ch : List Nat) (rows : List (List ℚ)) :
    List (List ℚ) :=
  (ch.zip rows).foldl (fun acc p => acc.set p.1 p.2) zeros

/-- Result bundle of get_features. -/
structure FeatureBunch where
  data : List (List (List ℚ))
  spike_ids : List Nat
  spike_clusters : List Int
  masks : List (List ℚ)
deriving DecidableEq

/-- Shallow embedding of TemplateController.get_features (gui.py lines
260 to 278).  The spike selection of the external controller base class
is a parameter; the source calls it with the fixed cap 1000.  The dense
block is built per spike by scattering the transposed sparse block into
a zero matrix at the channel ids of the features_ind column of the
cluster. -/
def get_features (select : Int → Nat → List Nat)
    (all_features : List (List (List ℚ))) (features_ind : List (List Int))
    (spike_clusters_arr : List Int) (template_masks : List (List ℚ))
    (nc nfpc : Nat) (cluster_id : Int) : Option FeatureBunch :=
  let spike_ids := select cluster_id 1000
  (mapOpt (fun row => pyIdx row cluster_id) features_ind).bind (fun chI =>
  (mapOpt (fun c => pyResolve nc c) chI).bind (fun ch =>
  (mapOpt (fun sid => all_features[sid]?) spike_ids).bind (fun blocks =>
    let f := blocks.map (fun blk =>
      scatterRows (List.replicate nc (List.replicate nfpc (0 : ℚ))) ch
        (transpose21 blk ch.length))
    (mapOpt (fun sid => spike_clusters_arr[sid]?) spike_ids).bind (fun scs =>
    (MaskLoader.getItems ⟨template_masks, spike_clusters_arr⟩ spike_ids).bind (fun ms =>
      some ⟨f, spike_ids, scs, ms⟩)))))

/-- Shallow embedding of TemplateController.similarity (gui.py lines
337 to 344).  The secondary close-clusters collaborator is external and
enters as the list close; scores are rationals since the collaborator
may produce non-integer scores while the first part uses the integer
scores -n + i. -/
def similarity (tfi : List (List Int)) (close : List (Int × ℚ))
    (cluster_id : Int) : Option (List (Int × ℚ)) :=
  let n : Int := tfi.headI.length
  (pyIdx tfi cluster_id).bind (fun sim0 =>
    let sim := sim0.enum.map (fun p => (p.2, ((-n + p.1 : Int) : ℚ)))
    let sim2 := close.filter (fun p => p.1 ∉ sim0)
    some (sim ++ sim2))

/-- Result bundle of get_template_features on the non-None path. -/
structure TFBunch where
  x : List ℚ
  y : List ℚ
  spike_ids : List Nat
  spike_clusters : List Int
deriving DecidableEq

/-- Column j of the template feature matrix at the given spike rows,
modelling the numpy indexing template_features[spikes, j]. -/
def tfCol (tf : List (List ℚ)) (spikes : List Nat) (j : Nat) : Option (List ℚ) :=
  mapOpt (fun s => (tf[s]?).bind (fun row => row[j]?)) spikes

/-- Shallow embedding of TemplateController.get_template_features
(gui.py lines 290 to 312).  Only the first two cluster ids are used;
the pair must be mutually similar, otherwise None is returned.  The
outer Option models raised indexing errors, the inner Option the
explicit Python None returns of the source.  The spike selection of the
external controller base class is a parameter (the source calls it
without a cap). -/
def get_template_features (tf : List (List ℚ)) (tfi : List (List Int))
    (sc : List Int) (select : Int → List Nat) (cluster_ids : List Int) :
    Option (Option TFBunch) :=
  if cluster_ids.length < 2 then some none
  else
    let cx := cluster_ids.getD 0 0
    let cy := cluster_ids.getD 1 0
    (pyIdx tfi cx).bind (fun sim_x =>
    (pyIdx tfi cy).bind (fun sim_y =>
      if cx ∉ sim_y ∨ cy ∉ sim_x then some none
      else
        let sxy := sim_x.indexOf cy
        let syx := sim_y.indexOf cx
        let spikes_x := select cx
        let spikes_y := select cy
        (tfCol tf spikes_x 0).bind (fun x1 =>
        (tfCol tf spikes_y syx).bind (fun x2 =>
        (tfCol tf spikes_x sxy).bind (fun y1 =>
        (tfCol tf spikes_y 0).bind (fun y2 =>
        (mapOpt (fun s => sc[s]?) (spikes_x ++ spikes_y)).bind (fun scs =>
          some (some ⟨x1 ++ x2, y1 ++ y2, spikes_x ++ spikes_y, scs⟩))))))))

/-- Ordered insertion of a value into a sorted duplicate-free list,
helper for the model of np.unique. -/
def insertUnique (x : Int) : List Int → List Int
  | [] => [x]
  | y :: ys => if x < y then x :: y :: ys else if x = y then y :: ys else y :: insertUnique x ys

/-- Model of np.unique on a one-dimensional integer array: the sorted
list of distinct values (gui.py line 196 derives the cluster ids this
way). -/
def npUnique (l : List Int) : List Int := l.foldr insertUnique []

/-- Shallow embedding of the cluster group initialization of gui.py line
229: the dictionary comprehension over range(n_clusters), every value
None, with n_clusters the number of distinct cluster ids (line 197). -/
def init_cluster_groups (spike_clusters : List Int) : List (Nat × Option Unit) :=
  (List.range (npUnique spike_clusters).length).map (fun c => (c, none))

theorem mapOpt_eq_map {f : α → Option β} {g : α → β} :
    ∀ l : List α, (∀ a ∈ l, f a = some (g a)) → mapOpt f l = some (l.map g) := by
  intro l h
  induction l with
  | nil => rfl
  | cons a l ih =>
    have ha := h a (List.mem_cons_self a l)
    have hl := ih (fun b hb => h b (List.mem_cons_of_mem a hb))
    simp [mapOpt, ha, hl]

theorem mapOpt_mem {f : α → Option β} :
    ∀ {l : List α} {r : List β}, mapOpt f l = some r → ∀ b ∈ r, ∃ a ∈ l, f a = some b := by
  intro l
  induction l with
  | nil => intro r h b hb; simp [mapOpt] at h; subst h; simp at hb
  | cons a l ih =>
    intro r h b hb
    simp only [mapOpt] at h
    rcases ha : f a with _ | b0 <;> rw [ha] at h
    · exact absurd h (by simp)
    rcases hl : mapOpt f l with _ | bs <;> rw [hl] at h
    · exact absurd h (by simp)
    obtain rfl : b0 :: bs = r := by simpa using h
    rcases List.mem_cons.mp hb with hb2 | hb2
    · exact ⟨a, List.mem_cons_self a l, by simpa [hb2] using ha⟩
    · obtain ⟨a1, ha1, hfa1⟩ := ih hl b hb2
      exact ⟨a1, List.mem_cons_of_mem a ha1, hfa1⟩

theorem mapOpt_map_eq {f : α → Option β} {h : β → γ} {k : α → γ} :
    ∀ {l : List α} {r : List β}, mapOpt f l = some r →
      (∀ a ∈ l, ∀ b, f a = some b → h b = k a) → r.map h = l.map k := by
  intro l
  induction l with
  | nil => intro r hr _; simp [mapOpt] at hr; subst hr; rfl
  | cons a l ih =>
    intro r hr hk
    simp only [mapOpt] at hr
    rcases ha : f a with _ | b0 <;> rw [ha] at hr
    · exact absurd hr (by simp)
    rcases hl : mapOpt f l with _ | bs <;> rw [hl] at hr
    · exact absurd hr (by simp)
    obtain rfl : b0 :: bs = r := by simpa using hr
    have h1 := hk a (List.mem_cons_self a l) b0 ha
    have h2 := ih hl (fun x hx => hk x (List.mem_cons_of_mem a hx))
    simp [h1, h2]

theorem map_zip_eq_zipWith (f : α → β → γ) :
    ∀ (l₁ : List α) (l₂ : List β),
      (l₁.zip l₂).map (fun p => f p.1 p.2) = List.zipWith f l₁ l₂ := by
  intro l₁
  induction l₁ with
  | nil => intro l₂; simp
  | cons a l ih => intro l₂; cases l₂ with
    | nil => simp
    | cons b l₂ => simp [List.zip_cons_cons, ih]

theorem rowSub_some_length {r x row : List ℚ} (h : rowSub r x = some row) :
    row.length = r.length := by
  by_cases hl : r.length = x.length
  · simp only [rowSub, if_pos hl] at h
    obtain rfl := (Option.some_inj.mp h).symm
    simp [List.length_zipWith, hl]
  · simp [rowSub, if_neg hl] at h

theorem regionSub_rowwise {region x : List (List ℚ)} {nc : Nat}
    (hlen : x.length = region.length)
    (hr : ∀ r ∈ region, r.length = nc) (hx : ∀ r ∈ x, r.length = nc) :
    regionSub region x =
      some (List.zipWith (fun r xr => List.zipWith (fun a b => a - b) r xr) region x) := by
  simp only [regionSub, if_pos hlen]
  have hmem : ∀ p ∈ region.zip x,
      rowSub p.1 p.2 = some (List.zipWith (fun a b => a - b) p.1 p.2) := by
    intro p hp
    obtain ⟨h1, h2⟩ := List.of_mem_zip hp
    simp [rowSub, hr p.1 h1, hx p.2 h2]
  rw [mapOpt_eq_map (region.zip x) hmem, map_zip_eq_zipWith]

theorem mapOpt_lengths_pair :
    ∀ {ps : List (List ℚ × List ℚ)} {r : List (List ℚ)},
      mapOpt (fun p => rowSub p.1 p.2) ps = some r →
      r.map List.length = ps.map (fun p => p.1.length) := by
  intro ps
  induction ps with
  | nil => intro r h; simp [mapOpt] at h; subst h; rfl
  | cons p ps ih =>
    intro r h
    simp only [mapOpt] at h
    rcases hp : rowSub p.1 p.2 with _ | row <;> rw [hp] at h
    · exact absurd h (by simp)
    rcases hl : mapOpt (fun p => rowSub p.1 p.2) ps with _ | rows <;> rw [hl] at h
    · exact absurd h (by simp)
    obtain rfl : row :: rows = r := by simpa using h
    simp [rowSub_some_length hp, ih hl]

theorem mapOpt_lengths_bcast :
    ∀ {region : List (List ℚ)} {x0 : List ℚ} {r : List (List ℚ)},
      mapOpt (fun row => rowSub row x0) region = some r →
      r.map List.length = region.map List.length := by
  intro region
  induction region with
  | nil => intro x0 r h; simp [mapOpt] at h; subst h; rfl
  | cons row region ih =>
    intro x0 r h
    simp only [mapOpt] at h
    rcases hp : rowSub row x0 with _ | row2 <;> rw [hp] at h
    · exact absurd h (by simp)
    rcases hl : mapOpt (fun row => rowSub row x0) region with _ | rows <;> rw [hl] at h
    · exact absurd h (by simp)
    obtain rfl : row2 :: rows = r := by simpa using h
    simp [rowSub_some_length hp, ih hl]

theorem regionSub_some_lengths {region x r : List (List ℚ)}
    (h : regionSub region x = some r) :
    r.map List.length = region.map List.length := by
  simp only [regionSub] at h
  by_cases h1 : x.length = region.length
  · rw [if_pos h1] at h
    have := mapOpt_lengths_pair h
    rw [this]
    have : (region.zip x).map (fun p => p.1.length) =
        ((region.zip x).map Prod.fst).map List.length := by
      simp [List.map_map, Function.comp]
    rw [this, List.map_fst_zip region x (le_of_eq h1.symm)]
  · rw [if_neg h1] at h
    by_cases h2 : x.length = 1
    · rw [if_pos h2] at h
      exact mapOpt_lengths_bcast h
    · rw [if_neg h2] at h
      exact absurd h (by simp)

theorem take_mid_drop (l : List α) (lo hi : Nat) :
    l.take lo ++ (l.drop lo).take (hi - lo) ++ l.drop (max lo hi) = l := by
  rcases Nat.le_total hi lo with hle | hle
  · rw [Nat.sub_eq_zero_of_le hle, Nat.max_eq_left hle]
    simp [List.take_append_drop]
  · rw [Nat.max_eq_right hle]
    have h1 : (l.drop lo).take (hi - lo) ++ (l.drop lo).drop (hi - lo) = l.drop lo :=
      List.take_append_drop _ _
    have h2 : (l.drop lo).drop (hi - lo) = l.drop hi := by
      rw [List.drop_drop, Nat.add_sub_cancel' hle]
    rw [h2] at h1
    calc l.take lo ++ (l.drop lo).take (hi - lo) ++ l.drop hi
        = l.take lo ++ ((l.drop lo).take (hi - lo) ++ l.drop hi) := by
          rw [List.append_assoc]
      _ = l.take lo ++ l.drop lo := by rw [h1]
      _ = l := List.take_append_drop _ _

theorem applyRegionSub_some_lengths {traces out : List (List ℚ)} {lo hi : Nat}
    {x : List (List ℚ)} (h : applyRegionSub traces lo hi x = some out) :
    out.map List.length = traces.map List.length := by
  simp only [applyRegionSub] at h
  rcases hr : regionSub ((traces.drop lo).take (hi - lo)) x with _ | r <;> rw [hr] at h
  · exact absurd h (by simp)
  obtain rfl : traces.take lo ++ r ++ traces.drop (max lo hi) = out := by simpa using h
  have hlen := regionSub_some_lengths hr
  have hfull := take_mid_drop traces lo hi
  calc (traces.take lo ++ r ++ traces.drop (max lo hi)).map List.length
      = (traces.take lo).map List.length ++ r.map List.length ++
          (traces.drop (max lo hi)).map List.length := by simp
    _ = (traces.take lo).map List.length ++
          ((traces.drop lo).take (hi - lo)).map List.length ++
          (traces.drop (max lo hi)).map List.length := by rw [hlen]
    _ = (traces.take lo ++ (traces.drop lo).take (hi - lo) ++
          traces.drop (max lo hi)).map List.length := by simp
    _ = traces.map List.length := by rw [hfull]

theorem subtractSpike_some_lengths {traces out : List (List ℚ)}
    {start rate st amp : ℚ} {tpl : List (List ℚ)}
    (h : subtractSpike traces start rate st amp tpl = some out) :
    out.map List.length = traces.map List.length := by
  simp only [subtractSpike] at h
  exact applyRegionSub_some_lengths h

theorem subtractGo_some_lengths {start rate : ℚ} {st : List ℚ} :
    ∀ {ps : List (ℚ × List (List ℚ))} {i : Nat} {tr out : List (List ℚ)},
      subtractGo start rate st ps i tr = some out →
      out.map List.length = tr.map List.length := by
  intro ps
  induction ps with
  | nil => intro i tr out h; simp [subtractGo] at h; subst h; rfl
  | cons p ps ih =>
    intro i tr out h
    obtain ⟨amp, tpl⟩ := p
    simp only [subtractGo] at h
    rcases h1 : st[i]? with _ | sti <;> rw [h1] at h
    · exact absurd h (by simp)
    rw [Option.some_bind] at h
    rcases h2 : subtractSpike tr start rate sti amp tpl with _ | tr2 <;> rw [h2] at h
    · exact absurd h (by simp)
    rw [Option.some_bind] at h
    calc out.map List.length = tr2.map List.length := ih h
      _ = tr.map List.length := subtractSpike_some_lengths h2

/-- Claim C9: for every input trace buffer and spike data, a successful
run of subtract_templates returns a buffer of exactly the shape of the
input (same number of sample rows and same channel count in every row).
The source copies the input on line 44 and only writes to the copy, so
the embedding is a pure function and the input buffer is never mutated;
the shape statement is the remaining content of the claim. -/
theorem subtract_templates_preserves_shape
    {traces : List (List ℚ)} {start : ℚ} {spike_times amplitudes : List ℚ}
    {spike_templates : List (List (List ℚ))} {sample_rate : ℚ}
    {out : List (List ℚ)}
    (h : subtract_templates traces start spike_times amplitudes spike_templates
          sample_rate = some out) :
    out.map List.length = traces.map List.length ∧ out.length = traces.length := by
  simp only [subtract_templates] at h
  by_cases hl : amplitudes.length = spike_templates.length
  · rw [if_pos hl] at h
    have h1 := subtractGo_some_lengths h
    refine ⟨h1, ?_⟩
    have := congrArg List.length h1
    simpa using this
  · rw [if_neg hl] at h
    exact absurd h (by simp)

/-- Witness for claim C9 at a concrete input: one spike fully inside a
61-sample buffer; the result keeps the shape of the input. -/
theorem subtract_templates_preserves_shape_witness :
    (List.replicate 61 [(9 : ℚ)]).map List.length =
        (List.replicate 61 [(10 : ℚ)]).map List.length ∧
      (List.replicate 61 [(9 : ℚ)]).length = (List.replicate 61 [(10 : ℚ)]).length :=
  @subtract_templates_preserves_shape (List.replicate 61 [(10 : ℚ)]) 0 [20] [1]
    [List.replicate 61 [(1 : ℚ)]] 1 (List.replicate 61 [(9 : ℚ)]) (by decide)

/-- Claim C10: subtract_templates with an empty spike set (no spike
times are read, no amplitudes, no templates) returns the input buffer
unchanged, elementwise. -/
theorem subtract_templates_empty_identity
    (traces : List (List ℚ)) (start : ℚ) (spike_times : List ℚ) (sample_rate : ℚ) :
    subtract_templates traces start spike_times [] [] sample_rate = some traces := rfl

theorem applyRegionSub_rowwise {traces x : List (List ℚ)} {lo hi : Nat} {nc : Nat}
    (hlen : x.length = ((traces.drop lo).take (hi - lo)).length)
    (htr : ∀ r ∈ traces, r.length = nc) (hx : ∀ r ∈ x, r.length = nc) :
    applyRegionSub traces lo hi x =
      some (traces.take lo ++
            List.zipWith (fun r xr => List.zipWith (fun a b => a - b) r xr)
              ((traces.drop lo).take (hi - lo)) x ++
            traces.drop (max lo hi)) := by
  have hmem : ∀ r ∈ (traces.drop lo).take (hi - lo), r.length = nc := fun r hrr =>
    htr r (List.mem_of_mem_drop (List.mem_of_mem_take hrr))
  simp only [applyRegionSub]
  rw [regionSub_rowwise hlen hmem hx]

/-- Claim C1, amended.  For a spike processed by subtract_templates with
a 61-sample template, writing t for the computed sample offset and n for
the trace buffer length: a window [t - 20, t + 41) that starts before
index 0 with its end inside the buffer is clipped, the leading template
samples are trimmed and the subtraction starts at index 0 and covers
exactly the overlap [0, t + 41); a window extending past the buffer end
with a start at or after index 0 is clipped, the trailing template
samples are trimmed and the subtraction covers exactly the overlap
[t - 20, n); but a window that overhangs both boundaries of a nonempty
buffer at once raises a broadcast error instead of clipping, because the
elif of gui.py line 56 is skipped when the first branch was taken. -/
theorem subtractSpike_boundary_clip
    (traces tpl : List (List ℚ)) (start sample_rate st amp : ℚ)
    (nc : Nat) (t : Int)
    (ht : pyRound ((st - start) * sample_rate) = t)
    (htr : ∀ r ∈ traces, r.length = nc)
    (htpl : tpl.length = 61)
    (htplr : ∀ r ∈ tpl, r.length = nc) :
    (t - 20 < 0 → 0 ≤ t + 41 → t + 41 ≤ (traces.length : Int) →
      subtractSpike traces start sample_rate st amp tpl =
        some (List.zipWith (fun r xr => List.zipWith (fun a b => a - b) r xr)
                (traces.take (t + 41).toNat)
                ((tpl.map (fun row => row.map (fun v => v * amp))).drop (20 - t).toNat)
              ++ traces.drop (t + 41).toNat)) ∧
    (0 ≤ t - 20 → (traces.length : Int) < t + 41 →
      subtractSpike traces start sample_rate st amp tpl =
        some (traces.take (t - 20).toNat ++
              List.zipWith (fun r xr => List.zipWith (fun a b => a - b) r xr)
                (traces.drop (t - 20).toNat)
                ((tpl.map (fun row => row.map (fun v => v * amp))).take
                  ((traces.length : Int) - (t - 20)).toNat))) ∧
    (t - 20 < 0 → (traces.length : Int) < t + 41 → 0 < traces.length →
      subtractSpike traces start sample_rate st amp tpl = none) := by
  have hx0len : (tpl.map (fun row => row.map (fun v => v * amp))).length = 61 := by
    simpa using htpl
  have hx0mem : ∀ r ∈ tpl.map (fun row => row.map (fun v => v * amp)), r.length = nc := by
    intro r hrm
    obtain ⟨row, hrow, rfl⟩ := List.mem_map.mp hrm
    simpa using htplr row hrow
  refine ⟨?_, ?_, ?_⟩
  · intro h1 h2 h3
    have hlo : (sliceIdx (traces.length : Int) 0).toNat = 0 := by
      simp only [sliceIdx]
      rw [if_neg (by omega : ¬ ((0 : Int) < 0))]
      omega
    have hhi : (sliceIdx (traces.length : Int) (t + 41)).toNat = (t + 41).toNat := by
      simp only [sliceIdx]
      rw [if_neg (by omega : ¬ (t + 41 < 0))]
      omega
    simp only [subtractSpike, ht]
    rw [if_pos h1]
    dsimp only
    rw [hlo, hhi]
    rw [show (-(t - 20)).toNat = (20 - t).toNat by omega]
    have hlen : ((tpl.map (fun row => row.map (fun v => v * amp))).drop
        (20 - t).toNat).length =
        ((traces.drop 0).take ((t + 41).toNat - 0)).length := by
      simp only [List.length_drop, List.length_take, List.drop_zero, hx0len]
      omega
    have hxm : ∀ r ∈ (tpl.map (fun row => row.map (fun v => v * amp))).drop
        (20 - t).toNat, r.length = nc := fun r hrr =>
      hx0mem r (List.mem_of_mem_drop hrr)
    rw [applyRegionSub_rowwise hlen htr hxm]
    simp [List.drop_zero]
  · intro h1 h2
    have hhi : (sliceIdx (traces.length : Int) (traces.length : Int)).toNat =
        traces.length := by
      simp only [sliceIdx]
      rw [if_neg (by omega : ¬ ((traces.length : Int) < 0))]
      omega
    simp only [subtractSpike, ht]
    rw [if_neg (by omega : ¬ (t - 20 < 0)),
      if_pos (by omega : t + 41 > (traces.length : Int))]
    dsimp only
    rw [hhi]
    rw [show (((tpl.map (fun row => row.map (fun v => v * amp))).length : Int) -
        (t + 41 - (traces.length : Int))).toNat =
        ((traces.length : Int) - (t - 20)).toNat by rw [hx0len]; omega]
    set L := (sliceIdx (traces.length : Int) (t - 20)).toNat with hLdef
    have hLval : L = (min (t - 20) (traces.length : Int)).toNat := by
      rw [hLdef]
      simp only [sliceIdx]
      rw [if_neg (by omega : ¬ (t - 20 < 0))]
    have hLle : L ≤ traces.length := by omega
    have hlen : ((tpl.map (fun row => row.map (fun v => v * amp))).take
        ((traces.length : Int) - (t - 20)).toNat).length =
        ((traces.drop L).take (traces.length - L)).length := by
      simp only [List.length_take, List.length_drop, hx0len]
      omega
    have hxm : ∀ r ∈ (tpl.map (fun row => row.map (fun v => v * amp))).take
        ((traces.length : Int) - (t - 20)).toNat, r.length = nc := fun r hrr =>
      hx0mem r (List.mem_of_mem_take hrr)
    rw [applyRegionSub_rowwise hlen htr hxm]
    have e1 : traces.take L = traces.take (t - 20).toNat := by
      rcases le_or_lt (t - 20) ((traces.length : Int)) with hc | hc
      · rw [show L = (t - 20).toNat by omega]
      · rw [List.take_of_length_le (by omega), List.take_of_length_le (by omega)]
    have e2 : (traces.drop L).take (traces.length - L) = traces.drop (t - 20).toNat := by
      have e0 : (traces.drop L).take (traces.length - L) = traces.drop L :=
        List.take_of_length_le (by simp [List.length_drop])
      rw [e0]
      rcases le_or_lt (t - 20) ((traces.length : Int)) with hc | hc
      · rw [show L = (t - 20).toNat by omega]
      · rw [List.drop_eq_nil_of_le (by omega), List.drop_eq_nil_of_le (by omega)]
    have e3 : traces.drop (max L traces.length) = [] := by
      rw [Nat.max_eq_right hLle]
      exact List.drop_length traces
    rw [e1, e2, e3, List.append_nil]
  · intro h1 h2 h3
    have hlo : (sliceIdx (traces.length : Int) 0).toNat = 0 := by
      simp only [sliceIdx]
      rw [if_neg (by omega : ¬ ((0 : Int) < 0))]
      omega
    have hhi : (sliceIdx (traces.length : Int) (t + 41)).toNat = traces.length := by
      simp only [sliceIdx]
      rw [if_neg (by omega : ¬ (t + 41 < 0))]
      omega
    simp only [subtractSpike, ht]
    rw [if_pos h1]
    dsimp only
    rw [hlo, hhi]
    simp only [applyRegionSub]
    have hXlen : ((tpl.map (fun row => row.map (fun v => v * amp))).drop
        (-(t - 20)).toNat).length = (t + 41).toNat := by
      simp only [List.length_drop, hx0len]
      omega
    have hreg : ((traces.drop 0).take (traces.length - 0)).length = traces.length := by
      simp [List.length_take]
    simp only [regionSub]
    rw [if_neg (by rw [hXlen, hreg]; omega), if_neg (by rw [hXlen]; omega)]

/-- Witness for claim C1 at concrete inputs: a leading overhang with the
window end inside a 50-sample buffer, a trailing overhang over the same
buffer, and a window overhanging both ends of a 10-sample buffer, which
raises. -/
theorem subtractSpike_boundary_clip_witness :
    subtractSpike (List.replicate 50 [(3 : ℚ)]) 0 1 5 2 (List.replicate 61 [(1 : ℚ)]) =
        some (List.replicate 46 [(1 : ℚ)] ++ List.replicate 4 [(3 : ℚ)]) ∧
      subtractSpike (List.replicate 50 [(3 : ℚ)]) 0 1 30 2 (List.replicate 61 [(1 : ℚ)]) =
        some (List.replicate 10 [(3 : ℚ)] ++ List.replicate 40 [(1 : ℚ)]) ∧
      subtractSpike (List.replicate 10 [(3 : ℚ)]) 0 1 5 2 (List.replicate 61 [(1 : ℚ)]) =
        none := by
  refine ⟨?_, ?_, ?_⟩
  · exact ((subtractSpike_boundary_clip (List.replicate 50 [(3 : ℚ)])
      (List.replicate 61 [(1 : ℚ)]) 0 1 5 2 1 5 (by decide) (by decide) (by decide)
      (by decide)).1 (by decide) (by decide) (by decide)).trans (by decide)
  · exact (((subtractSpike_boundary_clip (List.replicate 50 [(3 : ℚ)])
      (List.replicate 61 [(1 : ℚ)]) 0 1 30 2 1 30 (by decide) (by decide) (by decide)
      (by decide)).2.1 (by decide) (by decide))).trans (by decide)
  · exact (subtractSpike_boundary_clip (List.replicate 10 [(3 : ℚ)])
      (List.replicate 61 [(1 : ℚ)]) 0 1 5 2 1 5 (by decide) (by decide) (by decide)
      (by decide)).2.2 (by decide) (by decide) (by decide)

/-- Counterexample for claim C1 as stated: a spike whose window
[-15, 46) overhangs both boundaries of a 10-sample buffer does not clip;
the subtraction raises a broadcast error (modelled as none), because the
elif of gui.py line 56 is not reached once the leading clip ran. -/
theorem subtract_templates_both_overhang_raises :
    subtract_templates (List.replicate 10 [(0 : ℚ)]) 0 [5] [1]
      [List.replicate 61 [(1 : ℚ)]] 1 = none := by decide

theorem pyIdx_nonneg {l : List α} {c : Int} (d : α) (h0 : 0 ≤ c)
    (hlt : c.toNat < l.length) : pyIdx l c = some (l.getD c.toNat d) := by
  simp only [pyIdx, pyResolve]
  rw [if_neg (by omega : ¬ c < 0), if_pos (by constructor <;> omega)]
  rw [List.getD_eq_getElem l d hlt]
  exact List.getElem?_eq_getElem hlt

/-- Claim C5: the MaskLoader lookup returns, for every spike index and
for every array of spike indices, exactly the row of the per-template
mask table indexed by the cluster assigned to that spike. -/
theorem mask_lookup_by_cluster (ml : MaskLoader)
    (hc : ∀ c ∈ ml.spike_clusters, 0 ≤ c ∧ c.toNat < ml.cluster_masks.length) :
    (∀ i, i < ml.spike_clusters.length →
      ml.getItem i =
        some (ml.cluster_masks.getD (ml.spike_clusters.getD i 0).toNat [])) ∧
    (∀ ids : List Nat, (∀ i ∈ ids, i < ml.spike_clusters.length) →
      ml.getItems ids =
        some (ids.map (fun i =>
          ml.cluster_masks.getD (ml.spike_clusters.getD i 0).toNat []))) := by
  have hstep : ∀ i, i < ml.spike_clusters.length →
      ml.spike_clusters[i]? = some (ml.spike_clusters.getD i 0) := by
    intro i hi
    rw [List.getD_eq_getElem ml.spike_clusters 0 hi]
    exact List.getElem?_eq_getElem hi
  have hmaskstep : ∀ i, i < ml.spike_clusters.length →
      pyIdx ml.cluster_masks (ml.spike_clusters.getD i 0) =
        some (ml.cluster_masks.getD (ml.spike_clusters.getD i 0).toNat []) := by
    intro i hi
    have hmem : ml.spike_clusters.getD i 0 ∈ ml.spike_clusters := by
      rw [List.getD_eq_getElem ml.spike_clusters 0 hi]
      exact List.getElem_mem hi
    obtain ⟨hge, hlt⟩ := hc _ hmem
    exact pyIdx_nonneg [] hge hlt
  constructor
  · intro i hi
    simp only [MaskLoader.getItem, hstep i hi, Option.some_bind]
    exact hmaskstep i hi
  · intro ids hids
    simp only [MaskLoader.getItems]
    rw [mapOpt_eq_map ids (fun i hi => hstep i (hids i hi)), Option.some_bind]
    have harg : ∀ c ∈ ids.map (fun i => ml.spike_clusters.getD i 0),
        pyIdx ml.cluster_masks c = some (ml.cluster_masks.getD c.toNat []) := by
      intro c hcm
      obtain ⟨i, hi, rfl⟩ := List.mem_map.mp hcm
      exact hmaskstep i (hids i hi)
    rw [@mapOpt_eq_map Int (List ℚ) (fun c => pyIdx ml.cluster_masks c)
      (fun c => ml.cluster_masks.getD c.toNat [])
      (ids.map fun i => ml.spike_clusters.getD i 0) harg, List.map_map]
    rfl

/-- Witness for claim C5 at a concrete loader: two templates, two
spikes assigned to clusters 1 and 0; both the single and the batched
lookup return the mask rows of the assigned clusters. -/
theorem mask_lookup_by_cluster_witness :
    MaskLoader.getItem ⟨[[1, 0], [0, 1]], [1, 0]⟩ 0 = some [(0 : ℚ), 1] ∧
      MaskLoader.getItems ⟨[[1, 0], [0, 1]], [1, 0]⟩ [0, 1] =
        some [[(0 : ℚ), 1], [[(1 : ℚ), 0].getD 0 0, 0]] := by
  constructor
  · exact ((mask_lookup_by_cluster ⟨[[1, 0], [0, 1]], [1, 0]⟩ (by decide)).1 0
      (by decide)).trans (by decide)
  · exact ((mask_lookup_by_cluster ⟨[[1, 0], [0, 1]], [1, 0]⟩ (by decide)).2 [0, 1]
      (by decide)).trans (by decide)

theorem dictGet_mem_snd :
    ∀ {l : List (String × String)} {k v : String},
      dictGet l k = some v → v ∈ l.map Prod.snd := by
  intro l
  induction l with
  | nil => intro k v h; simp [dictGet] at h
  | cons p rest ih =>
    intro k v h
    simp only [dictGet] at h
    by_cases hk : k = p.1
    · rw [if_pos hk] at h
      obtain rfl : p.2 = v := by simpa using h
      simp
    · rw [if_neg hk] at h
      simpa using Or.inr (ih h)

theorem registry_all_npy : ∀ v ∈ filenames.map Prod.snd, (splitext v).2 = ".npy" := by
  decide

/-- Claim C7: an unregistered name fails with the registry KeyError
(the UnknownDatasetError of the specification); every registered name
resolves to a filename whose extension is the raw typed-array dump, so
the unsupported-extension situation cannot arise and read_array never
reaches the silent fall-through that would return a non-array None. -/
theorem read_array_registry (name : String) :
    (dictGet filenames name = none → read_array name = ReadOutcome.unknownDataset) ∧
    (∀ fn, dictGet filenames name = some fn →
      (splitext fn).2 = ".npy" ∧ read_array name = ReadOutcome.loadNpy fn) ∧
    read_array name ≠ ReadOutcome.pyNone := by
  rcases h : dictGet filenames name with _ | fn
  · refine ⟨fun _ => by simp [read_array, h], ?_, ?_⟩
    · intro fn hfn
      exact absurd hfn (by simp)
    · simp [read_array, h]
  · have hext := registry_all_npy fn (dictGet_mem_snd h)
    have hrun : read_array name = ReadOutcome.loadNpy fn := by
      simp only [read_array, h]
      rw [hext, if_neg (by decide), if_pos rfl]
    refine ⟨?_, ?_, ?_⟩
    · intro hnone
      exact absurd hnone (by simp)
    · intro fn2 hfn2
      obtain rfl : fn = fn2 := by simpa using hfn2
      exact ⟨hext, hrun⟩
    · rw [hrun]; simp

/-- Witness for claim C7: the unregistered name bogus raises, the
registered name amplitudes loads its npy file. -/
theorem read_array_registry_witness :
    read_array "bogus" = ReadOutcome.unknownDataset ∧
      read_array "amplitudes" = ReadOutcome.loadNpy "amplitudes.npy" :=
  ⟨(read_array_registry "bogus").1 (by decide),
    ((read_array_registry "amplitudes").2.1 "amplitudes.npy" (by decide)).2⟩

/-- Claim C8 is violated by the code (gui.py line 229, marked TODO):
with the non-contiguous cluster ids 0 and 5, the derived id set is
[0, 5] but the group mapping is keyed by range(n_clusters) = [0, 1]:
cluster id 5 has no entry.  Every present key does map to the unset
label, the part of the claim the code satisfies. -/
theorem cluster_groups_keys_bug :
    npUnique [0, 5] = [0, 5] ∧
      init_cluster_groups [0, 5] = [(0, none), (1, none)] ∧
      ((5 : Int) ∈ npUnique [0, 5] ∧
        ¬ ((5 : Nat) ∈ (init_cluster_groups [0, 5]).map Prod.fst)) ∧
      (∀ p ∈ init_cluster_groups [0, 5], p.2 = none) := by decide

/-- Claim C3, amended.  For a cluster with top-K similar-template row
sim0 (K = row length of the index table), similarity returns first the K
entries of sim0 with scores -K + rank: the scores are strictly
increasing with rank, so the closest, first-listed template receives the
MOST negative score -K, not the least negative one; after them come the
entries of the close-clusters collaborator whose ids do not occur in
sim0, in order; when sim0 and the collaborator ids are duplicate-free
the combined id list is duplicate-free, and every top-K entry precedes
every fallback entry. -/
theorem similarity_ranking
    (tfi : List (List Int)) (close : List (Int × ℚ)) (cluster_id : Int)
    (sim0 : List Int)
    (h0 : pyIdx tfi cluster_id = some sim0)
    (hn : tfi.headI.length = sim0.length)
    (hnodup : sim0.Nodup)
    (hclose : (close.map Prod.fst).Nodup) :
    (similarity tfi close cluster_id).isSome ∧
    ∀ r, similarity tfi close cluster_id = some r →
      (r.take sim0.length).map Prod.fst = sim0 ∧
      r.drop sim0.length = close.filter (fun p => p.1 ∉ sim0) ∧
      (∀ i, i < sim0.length →
        (r.getD i (0, 0)).2 = ((-(sim0.length : Int) + (i : Int)) : ℚ)) ∧
      (r.map Prod.fst).Nodup := by
  have hres : similarity tfi close cluster_id =
      some (sim0.enum.map (fun p => (p.2, ((-(sim0.length : Int) + p.1 : Int) : ℚ))) ++
        close.filter (fun p => p.1 ∉ sim0)) := by
    simp only [similarity, h0, Option.some_bind, hn]
  have hlen : (sim0.enum.map
      (fun p => (p.2, ((-(sim0.length : Int) + p.1 : Int) : ℚ)))).length =
      sim0.length := by
    simp
  have hfst : (sim0.enum.map
      (fun p => (p.2, ((-(sim0.length : Int) + p.1 : Int) : ℚ)))).map Prod.fst =
      sim0 := by
    rw [List.map_map]
    have : (Prod.fst ∘ fun p : Nat × Int =>
        (p.2, ((-(sim0.length : Int) + p.1 : Int) : ℚ))) = Prod.snd := by
      funext p
      rfl
    rw [this]
    exact List.enum_map_snd sim0
  constructor
  · rw [hres]
    rfl
  · intro r hr
    rw [hres] at hr
    obtain rfl := (Option.some_inj.mp hr).symm
    refine ⟨?_, ?_, ?_, ?_⟩
    · rw [List.take_left' hlen]
      exact hfst
    · exact List.drop_left' hlen
    · intro i hi
      rw [List.getD_append _ _ _ i (by omega)]
      have hitop : i < (sim0.enum.map
          (fun p => (p.2, ((-(sim0.length : Int) + p.1 : Int) : ℚ)))).length := by
        omega
      rw [List.getD_eq_getElem _ _ hitop, List.getElem_map]
      rw [List.getElem_enum]
      push_cast
      ring
    · rw [List.map_append, hfst]
      refine List.Nodup.append hnodup ?_ ?_
      · exact List.Nodup.sublist
          (List.Sublist.map Prod.fst (List.filter_sublist close)) hclose
      · rw [List.disjoint_left]
        intro a ha hamem
        obtain ⟨p, hp, rfl⟩ := List.mem_map.mp hamem
        obtain ⟨hpc, hpf⟩ := List.mem_filter.mp hp
        simp only [decide_not, Bool.not_eq_eq_eq_not, Bool.not_true,
          decide_eq_false_iff_not] at hpf
        exact hpf ha

/-- Witness for claim C3 at a concrete table: one cluster with top-K
row [7, 9] and close-cluster fallback [(9, 1/2), (3, 5)]; entry 9 is
dropped from the fallback, the top-K entries come first with scores
-2 and -1, and the id list has no duplicates. -/
theorem similarity_ranking_witness :
    ((([(7, -2), (9, -1), ((3 : Int), (5 : ℚ))]).take 2).map Prod.fst = [7, 9] ∧
      ([((7 : Int), (-2 : ℚ)), (9, -1), (3, 5)]).drop 2 =
        ([((9 : Int), (1 / 2 : ℚ)), (3, 5)]).filter (fun p => p.1 ∉ [(7 : Int), 9]) ∧
      (∀ i, i < ([(7 : Int), 9] : List Int).length →
        ((([((7 : Int), (-2 : ℚ)), (9, -1), (3, 5)]).getD i (0, 0)).2 =
          ((-(([(7 : Int), 9] : List Int).length : Int) + (i : Int)) : ℚ))) ∧
      (([((7 : Int), (-2 : ℚ)), (9, -1), (3, 5)]).map Prod.fst).Nodup) := by
  have h := (similarity_ranking [[7, 9]] [(9, 1 / 2), (3, 5)] 0 [7, 9] (by decide)
    (by decide) (by decide) (by decide)).2 [(7, -2), (9, -1), (3, 5)] (by decide)
  exact h

/-- Counterexample for claim C3 as stated: with top-K row [7, 9] and no
fallback entries, the closest, first-listed template 7 receives score
-2, which is strictly more negative than the score -1 of the
second-listed entry, so the first-listed entry does not receive the
least negative score. -/
theorem similarity_first_entry_most_negative :
    similarity [[7, 9]] [] 0 = some [(7, -2), (9, -1)] ∧ ((-2 : ℚ) < -1) := by
  decide

theorem tfCol_eq_map {tf : List (List ℚ)} {spikes : List Nat} {j : Nat} {m : Nat}
    (hs : ∀ s ∈ spikes, s < tf.length)
    (hrow : ∀ row ∈ tf, row.length = m) (hj : j < m) :
    tfCol tf spikes j = some (spikes.map (fun s => (tf.getD s []).getD j 0)) := by
  apply mapOpt_eq_map
  intro s hsmem
  have h1 : tf[s]? = some (tf.getD s []) := by
    rw [List.getD_eq_getElem tf [] (hs s hsmem)]
    exact List.getElem?_eq_getElem (hs s hsmem)
  rw [h1, Option.some_bind]
  have hmem : tf.getD s [] ∈ tf := by
    rw [List.getD_eq_getElem tf [] (hs s hsmem)]
    exact List.getElem_mem _
  have hlen : j < (tf.getD s []).length := by
    rw [hrow _ hmem]
    exact hj
  rw [List.getD_eq_getElem _ 0 hlen]
  exact List.getElem?_eq_getElem hlen

/-- Claim C4: get_template_features returns the Python None exactly when
fewer than two cluster ids are given, or when the first two ids cx and
cy are not mutually similar (cx absent from the top-K row of cy or cy
absent from the top-K row of cx); when the pair is mutually similar and
the data is well formed, it returns a bundle whose x and y arrays have
equal length and whose spike_ids array has length equal to the number of
selected spikes of cx plus that of cy. -/
theorem get_template_features_contract
    (tf : List (List ℚ)) (tfi : List (List Int)) (sc : List Int)
    (select : Int → List Nat) (cluster_ids : List Int)
    (sim_x sim_y : List Int)
    (hx : pyIdx tfi (cluster_ids.getD 0 0) = some sim_x)
    (hy : pyIdx tfi (cluster_ids.getD 1 0) = some sim_y)
    (hsimlen : sim_y.length = sim_x.length)
    (htf : ∀ row ∈ tf, row.length = sim_x.length)
    (hselx : ∀ s ∈ select (cluster_ids.getD 0 0), s < tf.length ∧ s < sc.length)
    (hsely : ∀ s ∈ select (cluster_ids.getD 1 0), s < tf.length ∧ s < sc.length) :
    (cluster_ids.length < 2 →
      get_template_features tf tfi sc select cluster_ids = some none) ∧
    (2 ≤ cluster_ids.length →
      (cluster_ids.getD 0 0 ∉ sim_y ∨ cluster_ids.getD 1 0 ∉ sim_x) →
      get_template_features tf tfi sc select cluster_ids = some none) ∧
    (2 ≤ cluster_ids.length →
      cluster_ids.getD 0 0 ∈ sim_y → cluster_ids.getD 1 0 ∈ sim_x →
      (get_template_features tf tfi sc select cluster_ids).isSome ∧
      get_template_features tf tfi sc select cluster_ids ≠ some none ∧
      ∀ b, get_template_features tf tfi sc select cluster_ids = some (some b) →
        b.x.length = b.y.length ∧
        b.spike_ids.length =
          (select (cluster_ids.getD 0 0)).length +
            (select (cluster_ids.getD 1 0)).length) := by
  refine ⟨?_, ?_, ?_⟩
  · intro hlt
    simp only [get_template_features, if_pos hlt]
  · intro hge hnm
    simp only [get_template_features]
    rw [if_neg (by omega : ¬ cluster_ids.length < 2), hx, hy]
    simp only [Option.some_bind]
    rw [if_pos hnm]
  · intro hge hmy hmx
    have hx0 : (0 : Nat) < sim_x.length :=
      List.length_pos_of_mem hmx
    have hsxy : sim_x.indexOf (cluster_ids.getD 1 0) < sim_x.length :=
      List.indexOf_lt_length.mpr hmx
    have hsyx : sim_y.indexOf (cluster_ids.getD 0 0) < sim_x.length := by
      rw [← hsimlen]
      exact List.indexOf_lt_length.mpr hmy
    have hsucc : get_template_features tf tfi sc select cluster_ids =
        some (some ⟨
          (select (cluster_ids.getD 0 0)).map (fun s => (tf.getD s []).getD 0 0) ++
            (select (cluster_ids.getD 1 0)).map (fun s =>
              (tf.getD s []).getD (sim_y.indexOf (cluster_ids.getD 0 0)) 0),
          (select (cluster_ids.getD 0 0)).map (fun s =>
              (tf.getD s []).getD (sim_x.indexOf (cluster_ids.getD 1 0)) 0) ++
            (select (cluster_ids.getD 1 0)).map (fun s => (tf.getD s []).getD 0 0),
          select (cluster_ids.getD 0 0) ++ select (cluster_ids.getD 1 0),
          (select (cluster_ids.getD 0 0) ++ select (cluster_ids.getD 1 0)).map
            (fun s => sc.getD s 0)⟩) := by
      simp only [get_template_features]
      rw [if_neg (by omega : ¬ cluster_ids.length < 2), hx, hy]
      simp only [Option.some_bind]
      rw [if_neg (by push_neg; exact ⟨hmy, hmx⟩)]
      rw [tfCol_eq_map (fun s hsm => (hselx s hsm).1) htf hx0,
        tfCol_eq_map (fun s hsm => (hsely s hsm).1) htf hsyx,
        tfCol_eq_map (fun s hsm => (hselx s hsm).1) htf hsxy]
      simp only [Option.some_bind]
      rw [tfCol_eq_map (fun s hsm => (hsely s hsm).1) htf hx0]
      simp only [Option.some_bind]
      have hscs : mapOpt (fun s : Nat => sc[s]?)
          (select (cluster_ids.getD 0 0) ++ select (cluster_ids.getD 1 0)) =
          some ((select (cluster_ids.getD 0 0) ++
            select (cluster_ids.getD 1 0)).map (fun s => sc.getD s 0)) := by
        apply mapOpt_eq_map
        intro s hsm
        have hslt : s < sc.length := by
          rcases List.mem_append.mp hsm with hm | hm
          · exact (hselx s hm).2
          · exact (hsely s hm).2
        rw [List.getD_eq_getElem sc 0 hslt]
        exact List.getElem?_eq_getElem hslt
      rw [hscs]
      simp only [Option.some_bind]
    refine ⟨by rw [hsucc]; rfl, by rw [hsucc]; simp, ?_⟩
    intro b hb
    rw [hsucc] at hb
    obtain rfl : _ = b := Option.some_inj.mp (Option.some_inj.mp hb)
    constructor
    · simp
    · simp

/-- Witness for claim C4 at concrete data: with a single id the result
is None; with two ids that are not mutually similar the result is None;
with the mutually similar pair 0, 1 over two templates and one selected
spike each, the bundle exists and has the claimed lengths. -/
theorem get_template_features_contract_witness :
    get_template_features [[1, 2], [3, 4]] [[0, 1], [1, 0]] [0, 1]
        (fun c => if c = 0 then [0] else [1]) [0] = some none ∧
      get_template_features [[1, 2], [3, 4]] [[1, 2], [1, 2]] [0, 1]
        (fun c => if c = 0 then [0] else [1]) [0, 1] = some none ∧
      (get_template_features [[1, 2], [3, 4]] [[0, 1], [1, 0]] [0, 1]
        (fun c => if c = 0 then [0] else [1]) [0, 1]).isSome ∧
      ((⟨[1, 4], [2, 3], [0, 1], [0, 1]⟩ : TFBunch).x.length =
          (⟨[1, 4], [2, 3], [0, 1], [0, 1]⟩ : TFBunch).y.length ∧
        (⟨[1, 4], [2, 3], [0, 1], [0, 1]⟩ : TFBunch).spike_ids.length =
          ((fun c : Int => if c = 0 then [(0 : Nat)] else [1]) 0).length +
            ((fun c : Int => if c = 0 then [(0 : Nat)] else [1]) 1).length) := by
  refine ⟨?_, ?_, ?_, ?_⟩
  · exact (get_template_features_contract [[1, 2], [3, 4]] [[0, 1], [1, 0]] [0, 1]
      (fun c => if c = 0 then [0] else [1]) [0] [0, 1] [0, 1] (by decide) (by decide)
      (by decide) (by decide) (by decide) (by decide)).1 (by decide)
  · exact (get_template_features_contract [[1, 2], [3, 4]] [[1, 2], [1, 2]] [0, 1]
      (fun c => if c = 0 then [0] else [1]) [0, 1] [1, 2] [1, 2] (by decide) (by decide)
      (by decide) (by decide) (by decide) (by decide)).2.1 (by decide) (by decide)
  · exact ((get_template_features_contract [[1, 2], [3, 4]] [[0, 1], [1, 0]] [0, 1]
      (fun c => if c = 0 then [0] else [1]) [0, 1] [0, 1] [1, 0] (by decide) (by decide)
      (by decide) (by decide) (by decide) (by decide)).2.2 (by decide) (by decide)
      (by decide)).1
  · exact ((get_template_features_contract [[1, 2], [3, 4]] [[0, 1], [1, 0]] [0, 1]
      (fun c => if c = 0 then [0] else [1]) [0, 1] [0, 1] [1, 0] (by decide) (by decide)
      (by decide) (by decide) (by decide) (by decide)).2.2 (by decide) (by decide)
      (by decide)).2.2 ⟨[1, 4], [2, 3], [0, 1], [0, 1]⟩ (by decide)

theorem foldl_max_init_le (l : List ℚ) : ∀ a : ℚ, a ≤ l.foldl max a := by
  induction l with
  | nil => intro a; simp
  | cons x l ih => intro a; exact le_trans (le_max_left a x) (ih (max a x))

theorem le_foldl_max_of_mem {x : ℚ} : ∀ {l : List ℚ} (a : ℚ), x ∈ l → x ≤ l.foldl max a := by
  intro l
  induction l with
  | nil => intro a h; simp at h
  | cons y l ih =>
    intro a h
    rcases List.mem_cons.mp h with rfl | hmem
    · exact le_trans (le_max_right a x) (foldl_max_init_le l (max a x))
    · exact ih (max a y) hmem

theorem foldl_zipWith_max_length :
    ∀ (rows : List (List ℚ)) (acc : List ℚ) (nc : Nat), acc.length = nc →
      (∀ r ∈ rows, r.length = nc) →
      (rows.foldl (fun a row => List.zipWith max a row) acc).length = nc := by
  intro rows
  induction rows with
  | nil => intro acc nc h _; simpa using h
  | cons r rows ih =>
    intro acc nc hacc hr
    simp only [List.foldl_cons]
    apply ih
    · simp [List.length_zipWith, hacc, hr r (List.mem_cons_self r rows)]
    · exact fun r2 h2 => hr r2 (List.mem_cons_of_mem r h2)

theorem foldl_zipWith_max_getD :
    ∀ (rows : List (List ℚ)) (acc : List ℚ) (nc c : Nat), acc.length = nc →
      (∀ r ∈ rows, r.length = nc) → c < nc →
      (rows.foldl (fun a row => List.zipWith max a row) acc).getD c 0 =
        rows.foldl (fun a row => max a (row.getD c 0)) (acc.getD c 0) := by
  intro rows
  induction rows with
  | nil => intro acc nc c _ _ _; rfl
  | cons r rows ih =>
    intro acc nc c hacc hr hc
    simp only [List.foldl_cons]
    have hrl : r.length = nc := hr r (List.mem_cons_self r rows)
    have hlen : (List.zipWith max acc r).length = nc := by
      simp [List.length_zipWith, hacc, hrl]
    rw [ih (List.zipWith max acc r) nc c hlen
      (fun r2 h2 => hr r2 (List.mem_cons_of_mem r h2)) hc]
    have h1 : c < acc.length := by omega
    have h2 : c < r.length := by omega
    have h3 : c < (List.zipWith max acc r).length := by omega
    rw [List.getD_eq_getElem _ 0 h3, List.getD_eq_getElem _ 0 h1,
      List.getD_eq_getElem _ 0 h2, List.getElem_zipWith]

theorem foldl_max_congr {g h : List ℚ → ℚ} :
    ∀ (rs : List (List ℚ)) (a : ℚ), (∀ r ∈ rs, g r = h r) →
      rs.foldl (fun a r => max a (g r)) a = rs.foldl (fun a r => max a (h r)) a := by
  intro rs
  induction rs with
  | nil => intro a _; rfl
  | cons r rs ih =>
    intro a hgh
    simp only [List.foldl_cons]
    rw [hgh r (List.mem_cons_self r rs)]
    exact ih _ (fun r2 h2 => hgh r2 (List.mem_cons_of_mem r h2))

theorem channelPeaks_cons (r0 : List ℚ) (rs : List (List ℚ)) :
    channelPeaks (r0 :: rs) =
      (rs.map (fun r => r.map (fun v => |v|))).foldl
        (fun a row => List.zipWith max a row) (r0.map (fun v => |v|)) := rfl

theorem channelPeaks_length {tpl : List (List ℚ)} {nc : Nat} (hne : tpl ≠ [])
    (hr : ∀ r ∈ tpl, r.length = nc) : (channelPeaks tpl).length = nc := by
  obtain ⟨r0, rs, rfl⟩ := List.exists_cons_of_ne_nil hne
  rw [channelPeaks_cons]
  apply foldl_zipWith_max_length
  · simp [hr r0 (List.mem_cons_self r0 rs)]
  · intro r2 h2
    obtain ⟨r3, h3, rfl⟩ := List.mem_map.mp h2
    simp [hr r3 (List.mem_cons_of_mem r0 h3)]

theorem channelPeaks_getD_eq {tpl : List (List ℚ)} {nc : Nat} (hne : tpl ≠ [])
    (hr : ∀ r ∈ tpl, r.length = nc) {c : Nat} (hc : c < nc) :
    (channelPeaks tpl).getD c 0 = peakPerChannel tpl c := by
  obtain ⟨r0, rs, rfl⟩ := List.exists_cons_of_ne_nil hne
  have habs : ∀ r : List ℚ, r ∈ r0 :: rs →
      (r.map (fun v => |v|)).getD c 0 = |r.getD c 0| := by
    intro r hrm
    have hcr : c < r.length := by rw [hr r hrm]; exact hc
    rw [List.getD_eq_getElem _ 0 (by simpa using hcr), List.getElem_map,
      List.getD_eq_getElem _ 0 hcr]
  rw [channelPeaks_cons]
  rw [foldl_zipWith_max_getD _ _ nc c (by simp [hr r0 (List.mem_cons_self r0 rs)])
    (fun r2 h2 => by
      obtain ⟨r3, h3, rfl⟩ := List.mem_map.mp h2
      simp [hr r3 (List.mem_cons_of_mem r0 h3)]) hc]
  rw [List.foldl_map]
  simp only [peakPerChannel, List.map_cons, List.foldl_cons]
  rw [habs r0 (List.mem_cons_self r0 rs)]
  rw [max_eq_right (abs_nonneg (r0.getD c 0))]
  rw [List.foldl_map]
  exact foldl_max_congr rs _ (fun r2 h2 => habs r2 (List.mem_cons_of_mem r0 h2))

theorem peakPerChannel_nonneg (tpl : List (List ℚ)) (c : Nat) :
    0 ≤ peakPerChannel tpl c :=
  foldl_max_init_le _ 0

theorem globalPeak_nonneg (tpl : List (List ℚ)) : 0 ≤ globalPeak tpl :=
  foldl_max_init_le _ 0

theorem channelPeak_le_globalPeak {tpl : List (List ℚ)} {v : ℚ}
    (hv : v ∈ channelPeaks tpl) : v ≤ globalPeak tpl :=
  le_foldl_max_of_mem 0 hv

theorem maskRow_eq {tpl : List (List ℚ)} {nc : Nat} (hnc : 0 < nc)
    (hne : tpl ≠ []) (hr : ∀ r ∈ tpl, r.length = nc) :
    maskRow tpl = some (if globalPeak tpl = 0 then
        (channelPeaks tpl).map (fun _ => (0 : ℚ))
      else (channelPeaks tpl).map (fun v => v / globalPeak tpl)) := by
  have hlen : (channelPeaks tpl).length = nc := channelPeaks_length hne hr
  have hmne : channelPeaks tpl ≠ [] := by
    intro h
    rw [h] at hlen
    simp at hlen
    omega
  obtain ⟨v0, vs, hm0⟩ := List.exists_cons_of_ne_nil hmne
  have hv0 : 0 ≤ v0 := by
    have h1 : (channelPeaks tpl).getD 0 0 = peakPerChannel tpl 0 :=
      channelPeaks_getD_eq hne hr hnc
    rw [hm0] at h1
    simp only [List.getD_cons_zero] at h1
    rw [h1]
    exact peakPerChannel_nonneg tpl 0
  have hgp : globalPeak tpl = vs.foldl max v0 := by
    simp only [globalPeak, hm0, List.foldl_cons]
    rw [max_eq_right hv0]
  simp only [maskRow, hm0]
  rw [if_neg (by simp)]
  simp only [List.tail_cons, List.headI_cons]
  rw [← hgp]
  split_ifs with h
  · rfl
  · rfl

/-- Claim C6: for every well-formed templates tensor (each template
nonempty in time and rectangular over a positive number of channels),
get_masks succeeds and returns one row per template, each row one value
per channel, every value within [0, 1], and the value at template k and
channel c equals the per-channel peak absolute value divided by the
global peak absolute value of template k, with an all-zero row (no
division failure) for a template whose global peak is exactly zero. -/
theorem get_masks_bounds
    (templates : List (List (List ℚ))) (nc : Nat) (hnc : 0 < nc)
    (hne : ∀ tpl ∈ templates, tpl ≠ [])
    (hrect : ∀ tpl ∈ templates, ∀ r ∈ tpl, r.length = nc) :
    (get_masks templates).isSome ∧
    ∀ masks, get_masks templates = some masks →
      masks.length = templates.length ∧
      (∀ row ∈ masks, row.length = nc ∧ ∀ v ∈ row, 0 ≤ v ∧ v ≤ 1) ∧
      (∀ k, k < templates.length → ∀ c, c < nc →
        (masks.getD k []).getD c 0 =
          if globalPeak (templates.getD k []) = 0 then 0
          else peakPerChannel (templates.getD k []) c /
            globalPeak (templates.getD k [])) := by
  have hres : get_masks templates = some (templates.map (fun tpl =>
      if globalPeak tpl = 0 then (channelPeaks tpl).map (fun _ => (0 : ℚ))
      else (channelPeaks tpl).map (fun v => v / globalPeak tpl))) := by
    simp only [get_masks]
    apply mapOpt_eq_map
    intro tpl htm
    exact maskRow_eq hnc (hne tpl htm) (hrect tpl htm)
  refine ⟨by rw [hres]; rfl, ?_⟩
  intro masks hm
  rw [hres] at hm
  obtain rfl := (Option.some_inj.mp hm).symm
  refine ⟨by simp, ?_, ?_⟩
  · intro row hrow
    obtain ⟨tpl, htm, rfl⟩ := List.mem_map.mp hrow
    have hcl : (channelPeaks tpl).length = nc :=
      channelPeaks_length (hne tpl htm) (hrect tpl htm)
    have hwnn : ∀ w ∈ channelPeaks tpl, 0 ≤ w := by
      intro w hw
      obtain ⟨i, hi, hwi⟩ := List.mem_iff_getElem.mp hw
      have hin : i < nc := by omega
      have h1 := channelPeaks_getD_eq (hne tpl htm) (hrect tpl htm) hin
      rw [List.getD_eq_getElem _ 0 hi] at h1
      rw [← hwi, h1]
      exact peakPerChannel_nonneg tpl i
    by_cases hgp : globalPeak tpl = 0
    · rw [if_pos hgp]
      refine ⟨by simpa using hcl, ?_⟩
      intro v hv
      obtain ⟨w, hw, rfl⟩ := List.mem_map.mp hv
      norm_num
    · rw [if_neg hgp]
      refine ⟨by simpa using hcl, ?_⟩
      intro v hv
      obtain ⟨w, hw, rfl⟩ := List.mem_map.mp hv
      have hgppos : 0 < globalPeak tpl :=
        lt_of_le_of_ne (globalPeak_nonneg tpl) (Ne.symm hgp)
      exact ⟨div_nonneg (hwnn w hw) (le_of_lt hgppos),
        (div_le_one hgppos).mpr (channelPeak_le_globalPeak hw)⟩
  · intro k hk c hc
    have hkm : k < (templates.map (fun tpl =>
        if globalPeak tpl = 0 then (channelPeaks tpl).map (fun _ => (0 : ℚ))
        else (channelPeaks tpl).map (fun v => v / globalPeak tpl))).length := by
      simpa using hk
    rw [List.getD_eq_getElem _ [] hkm, List.getElem_map]
    have htplD : templates[k] = templates.getD k [] :=
      (List.getD_eq_getElem templates [] hk).symm
    rw [htplD]
    have htm : templates.getD k [] ∈ templates := by
      rw [← htplD]
      exact List.getElem_mem hk
    have hcl : (channelPeaks (templates.getD k [])).length = nc :=
      channelPeaks_length (hne _ htm) (hrect _ htm)
    by_cases hgp : globalPeak (templates.getD k []) = 0
    · rw [if_pos hgp, if_pos hgp]
      have hcm : c < ((channelPeaks (templates.getD k [])).map
          (fun _ => (0 : ℚ))).length := by
        rw [List.length_map, hcl]
        exact hc
      rw [List.getD_eq_getElem _ 0 hcm, List.getElem_map]
    · rw [if_neg hgp, if_neg hgp]
      have hcm : c < ((channelPeaks (templates.getD k [])).map
          (fun v => v / globalPeak (templates.getD k []))).length := by
        rw [List.length_map, hcl]
        exact hc
      rw [List.getD_eq_getElem _ 0 hcm, List.getElem_map]
      have hcc : c < (channelPeaks (templates.getD k [])).length := by omega
      have h2 := channelPeaks_getD_eq (hne _ htm) (hrect _ htm) hc
      rw [List.getD_eq_getElem _ 0 hcc] at h2
      rw [h2]

/-- Witness for claim C6 at a concrete tensor of two templates over two
channels: an ordinary template gets the normalized peak row, and the
all-zero template gets an all-zero row without a division failure. -/
theorem get_masks_bounds_witness :
    (get_masks [[[1, -2], [3, 1]], [[0, 0], [0, 0]]]).isSome ∧
      (∀ row ∈ ([[1, 2 / 3], [0, 0]] : List (List ℚ)), row.length = 2 ∧
        ∀ v ∈ row, 0 ≤ v ∧ v ≤ 1) ∧
      (([[1, 2 / 3], [0, 0]] : List (List ℚ)).getD 1 []).getD 0 0 =
        (if globalPeak (([[[1, -2], [3, 1]], [[0, 0], [0, 0]]] :
              List (List (List ℚ))).getD 1 []) = 0 then 0
          else peakPerChannel (([[[1, -2], [3, 1]], [[0, 0], [0, 0]]] :
              List (List (List ℚ))).getD 1 []) 0 /
            globalPeak (([[[1, -2], [3, 1]], [[0, 0], [0, 0]]] :
              List (List (List ℚ))).getD 1 [])) := by
  have h := get_masks_bounds [[[1, -2], [3, 1]], [[0, 0], [0, 0]]] 2 (by decide)
    (by decide) (by decide)
  refine ⟨h.1, ?_, ?_⟩
  · exact (h.2 [[1, 2 / 3], [0, 0]] (by decide)).2.1
  · exact (h.2 [[1, 2 / 3], [0, 0]] (by decide)).2.2 1 (by decide) 0 (by decide)

theorem foldl_set_length :
    ∀ (ps : List (Nat × List ℚ)) (z : List (List ℚ)),
      (ps.foldl (fun acc p => acc.set p.1 p.2) z).length = z.length := by
  intro ps
  induction ps with
  | nil => intro z; rfl
  | cons p ps ih =>
    intro z
    simp only [List.foldl_cons]
    rw [ih, List.length_set]

theorem foldl_set_getD_not_mem :
    ∀ (ps : List (Nat × List ℚ)) (z : List (List ℚ)) (g : Nat),
      (∀ p ∈ ps, p.1 ≠ g) →
      (ps.foldl (fun acc p => acc.set p.1 p.2) z).getD g [] = z.getD g [] := by
  intro ps
  induction ps with
  | nil => intro z g _; rfl
  | cons p ps ih =>
    intro z g hne
    simp only [List.foldl_cons]
    rw [ih _ _ (fun q hq => hne q (List.mem_cons_of_mem p hq))]
    rw [List.getD_eq_getElem?_getD, List.getD_eq_getElem?_getD,
      List.getElem?_set_ne (hne p (List.mem_cons_self p ps))]

theorem foldl_set_getD_mem :
    ∀ (ps : List (Nat × List ℚ)) (z : List (List ℚ)) (g : Nat) (r : List ℚ),
      (ps.map Prod.fst).Nodup → (g, r) ∈ ps → g < z.length →
      (ps.foldl (fun acc p => acc.set p.1 p.2) z).getD g [] = r := by
  intro ps
  induction ps with
  | nil => intro z g r _ hm _; simp at hm
  | cons p ps ih =>
    intro z g r hnd hm hg
    simp only [List.foldl_cons]
    rcases List.mem_cons.mp hm with rfl | hm2
    · have hnot : ∀ q ∈ ps, q.1 ≠ (g, r).1 := by
        intro q hq
        have hgnot : (g, r).1 ∉ ps.map Prod.fst := (List.nodup_cons.mp hnd).1
        intro he
        exact hgnot (he ▸ List.mem_map_of_mem Prod.fst hq)
      rw [foldl_set_getD_not_mem ps _ _ hnot]
      rw [List.getD_eq_getElem?_getD, List.getElem?_set_self hg]
      rfl
    · exact ih _ g r (List.nodup_cons.mp hnd).2 hm2
        (by rw [List.length_set]; exact hg)

theorem foldl_set_mem :
    ∀ (ps : List (Nat × List ℚ)) (z : List (List ℚ)) (x : List ℚ),
      x ∈ ps.foldl (fun acc p => acc.set p.1 p.2) z →
      x ∈ z ∨ x ∈ ps.map Prod.snd := by
  intro ps
  induction ps with
  | nil => intro z x h; exact Or.inl h
  | cons p ps ih =>
    intro z x h
    simp only [List.foldl_cons] at h
    rcases ih _ x h with h2 | h2
    · rcases List.mem_or_eq_of_mem_set h2 with h3 | h3
      · exact Or.inl h3
      · exact Or.inr (by simp [h3])
    · exact Or.inr (List.mem_cons_of_mem _ h2)

theorem transpose21_getD {blk : List (List ℚ)} {nloc j : Nat} (hj : j < nloc) :
    (transpose21 blk nloc).getD j [] = blk.map (fun prow => prow.getD j 0) := by
  have hjl : j < (transpose21 blk nloc).length := by
    simp [transpose21, hj]
  rw [List.getD_eq_getElem _ [] hjl]
  simp only [transpose21, List.getElem_map, List.getElem_range]

theorem transpose21_length (blk : List (List ℚ)) (nloc : Nat) :
    (transpose21 blk nloc).length = nloc := by
  simp [transpose21]

theorem pyResolve_lt {n : Nat} {i : Int} {j : Nat} (h : pyResolve n i = some j) :
    j < n := by
  simp only [pyResolve] at h
  by_cases hc : 0 ≤ (if i < 0 then i + n else i) ∧ (if i < 0 then i + n else i) < (n : Int)
  · rw [if_pos hc] at h
    obtain rfl : _ = j := Option.some_inj.mp h
    omega
  · rw [if_neg hc] at h
    exact absurd h (by simp)

/-- Claim C2: under the contract of the external spike selector (at most
the requested number of spikes, here 1000) and on well-formed data,
get_features succeeds and returns a dense block with one matrix of
n_channels rows per selected spike, each row n_features_per_channel
wide; the row at global channel ch j holds the j-th sparse channel
column of the spike block in all_features, and every channel not listed
in the features_ind column of the cluster holds exactly the zero row it
was initialized with. -/
theorem get_features_scatter
    (select : Int → Nat → List Nat)
    (all_features : List (List (List ℚ))) (features_ind : List (List Int))
    (spike_clusters_arr : List Int) (template_masks : List (List ℚ))
    (nc nfpc : Nat) (cluster_id : Int)
    (chI : List Int) (ch : List Nat)
    (hsel : (select cluster_id 1000).length ≤ 1000)
    (hch1 : mapOpt (fun row => pyIdx row cluster_id) features_ind = some chI)
    (hch2 : mapOpt (fun c => pyResolve nc c) chI = some ch)
    (hnodup : ch.Nodup)
    (haf : ∀ sid ∈ select cluster_id 1000, sid < all_features.length)
    (hsc : ∀ sid ∈ select cluster_id 1000, sid < spike_clusters_arr.length)
    (hcm : ∀ c ∈ spike_clusters_arr, 0 ≤ c ∧ c.toNat < template_masks.length)
    (hblk : ∀ blk ∈ all_features, blk.length = nfpc) :
    (get_features select all_features features_ind spike_clusters_arr template_masks
        nc nfpc cluster_id).isSome ∧
    ∀ b, get_features select all_features features_ind spike_clusters_arr
        template_masks nc nfpc cluster_id = some b →
      b.spike_ids = select cluster_id 1000 ∧
      b.spike_ids.length ≤ 1000 ∧
      b.data.length = b.spike_ids.length ∧
      (∀ s, s < b.spike_ids.length →
        (b.data.getD s []).length = nc ∧
        (∀ row ∈ b.data.getD s [], row.length = nfpc) ∧
        (∀ g, g < nc → g ∉ ch →
          (b.data.getD s []).getD g [] = List.replicate nfpc 0) ∧
        (∀ j, j < ch.length →
          (b.data.getD s []).getD (ch.getD j 0) [] =
            (all_features.getD (b.spike_ids.getD s 0) []).map
              (fun prow => prow.getD j 0))) := by
  have hchlt : ∀ c ∈ ch, c < nc := by
    intro c hc
    obtain ⟨cI, _, hcI⟩ := mapOpt_mem hch2 c hc
    exact pyResolve_lt hcI
  have hblocks : mapOpt (fun sid => all_features[sid]?) (select cluster_id 1000) =
      some ((select cluster_id 1000).map (fun sid => all_features.getD sid [])) := by
    apply mapOpt_eq_map
    intro sid hsid
    rw [List.getD_eq_getElem _ [] (haf sid hsid)]
    exact List.getElem?_eq_getElem (haf sid hsid)
  have hscs : mapOpt (fun sid => spike_clusters_arr[sid]?) (select cluster_id 1000) =
      some ((select cluster_id 1000).map (fun sid => spike_clusters_arr.getD sid 0)) := by
    apply mapOpt_eq_map
    intro sid hsid
    rw [List.getD_eq_getElem _ 0 (hsc sid hsid)]
    exact List.getElem?_eq_getElem (hsc sid hsid)
  have hmasks : MaskLoader.getItems ⟨template_masks, spike_clusters_arr⟩
      (select cluster_id 1000) =
      some ((select cluster_id 1000).map (fun sid =>
        template_masks.getD (spike_clusters_arr.getD sid 0).toNat [])) := by
    simp only [MaskLoader.getItems]
    rw [hscs, Option.some_bind]
    have harg : ∀ c ∈ (select cluster_id 1000).map
        (fun sid => spike_clusters_arr.getD sid 0),
        pyIdx template_masks c = some (template_masks.getD c.toNat []) := by
      intro c hcmem
      obtain ⟨sid, hsid, rfl⟩ := List.mem_map.mp hcmem
      have hmem : spike_clusters_arr.getD sid 0 ∈ spike_clusters_arr := by
        rw [List.getD_eq_getElem _ 0 (hsc sid hsid)]
        exact List.getElem_mem _
      obtain ⟨hge, hlt⟩ := hcm _ hmem
      exact pyIdx_nonneg [] hge hlt
    rw [@mapOpt_eq_map Int (List ℚ) (fun c => pyIdx template_masks c)
      (fun c => template_masks.getD c.toNat [])
      ((select cluster_id 1000).map (fun sid => spike_clusters_arr.getD sid 0)) harg,
      List.map_map]
    rfl
  have hres : get_features select all_features features_ind spike_clusters_arr
      template_masks nc nfpc cluster_id =
      some ⟨((select cluster_id 1000).map (fun sid => all_features.getD sid [])).map
          (fun blk => scatterRows (List.replicate nc (List.replicate nfpc (0 : ℚ))) ch
            (transpose21 blk ch.length)),
        select cluster_id 1000,
        (select cluster_id 1000).map (fun sid => spike_clusters_arr.getD sid 0),
        (select cluster_id 1000).map (fun sid =>
          template_masks.getD (spike_clusters_arr.getD sid 0).toNat [])⟩ := by
    simp only [get_features]
    rw [hch1, Option.some_bind, hch2, Option.some_bind, hblocks, Option.some_bind,
      hscs, Option.some_bind, hmasks, Option.some_bind]
  refine ⟨by rw [hres]; rfl, ?_⟩
  intro b hb
  rw [hres] at hb
  obtain rfl : _ = b := Option.some_inj.mp hb
  refine ⟨rfl, hsel, by simp, ?_⟩
  intro s hs
  have hs2 : s < (((select cluster_id 1000).map
      (fun sid => all_features.getD sid [])).map
      (fun blk => scatterRows (List.replicate nc (List.replicate nfpc (0 : ℚ))) ch
        (transpose21 blk ch.length))).length := by
    simpa using hs
  have hdata : (FeatureBunch.data ⟨((select cluster_id 1000).map
      (fun sid => all_features.getD sid [])).map
        (fun blk => scatterRows (List.replicate nc (List.replicate nfpc (0 : ℚ))) ch
          (transpose21 blk ch.length)),
      select cluster_id 1000,
      (select cluster_id 1000).map (fun sid => spike_clusters_arr.getD sid 0),
      (select cluster_id 1000).map (fun sid =>
        template_masks.getD (spike_clusters_arr.getD sid 0).toNat [])⟩).getD s [] =
      scatterRows (List.replicate nc (List.replicate nfpc (0 : ℚ))) ch
        (transpose21 (all_features.getD ((select cluster_id 1000).getD s 0) [])
          ch.length) := by
    rw [List.getD_eq_getElem _ [] hs2]
    rw [List.getElem_map, List.getElem_map]
    rw [List.getD_eq_getElem _ 0 (by simpa using hs)]
  rw [hdata]
  set blk := all_features.getD ((select cluster_id 1000).getD s 0) [] with hblkdef
  have hblkmem : blk ∈ all_features := by
    rw [hblkdef]
    have hsidm : (select cluster_id 1000).getD s 0 ∈ select cluster_id 1000 := by
      rw [List.getD_eq_getElem _ 0 (by simpa using hs)]
      exact List.getElem_mem _
    rw [List.getD_eq_getElem _ [] (haf _ hsidm)]
    exact List.getElem_mem _
  have hrowslen : (transpose21 blk ch.length).length = ch.length :=
    transpose21_length blk ch.length
  refine ⟨?_, ?_, ?_, ?_⟩
  · rw [scatterRows, foldl_set_length]
    simp
  · intro row hrow
    rcases foldl_set_mem _ _ row hrow with hmem | hmem
    · obtain ⟨-, rfl⟩ := List.mem_replicate.mp hmem
      simp
    · rw [List.map_snd_zip ch (transpose21 blk ch.length) (le_of_eq hrowslen)] at hmem
      obtain ⟨i, hi, hrow2⟩ := List.mem_iff_getElem.mp hmem
      have hi2 : i < ch.length := by omega
      have := @transpose21_getD blk ch.length i hi2
      rw [List.getD_eq_getElem _ [] hi] at this
      rw [← hrow2, this]
      simp [hblk blk hblkmem]
  · intro g hg hgch
    rw [scatterRows, foldl_set_getD_not_mem _ _ _ ?_]
    · rw [List.getD_eq_getElem?_getD, List.getElem?_eq_getElem (by simpa using hg)]
      simp [List.getElem_replicate]
    · intro p hp
      intro he
      exact hgch (he ▸ (List.of_mem_zip hp).1)
  · intro j hj
    have hjr : j < (transpose21 blk ch.length).length := by omega
    have hjz : j < (ch.zip (transpose21 blk ch.length)).length := by
      simp [List.length_zip]
      omega
    have hpair : (ch.getD j 0, (transpose21 blk ch.length).getD j []) ∈
        ch.zip (transpose21 blk ch.length) := by
      rw [List.getD_eq_getElem _ 0 hj, List.getD_eq_getElem _ [] hjr]
      have hz := @List.getElem_zip Nat (List ℚ) ch (transpose21 blk ch.length) j hjz
      rw [← hz]
      exact List.getElem_mem hjz
    rw [scatterRows, foldl_set_getD_mem _ _ _ _ ?_ hpair ?_]
    · exact transpose21_getD hj
    · rw [List.map_fst_zip ch _ (le_of_eq hrowslen.symm)]
      exact hnodup
    · simp only [List.length_replicate]
      have : ch.getD j 0 ∈ ch := by
        rw [List.getD_eq_getElem _ 0 hj]
        exact List.getElem_mem _
      exact hchlt _ this

/-- Witness for claim C2 at concrete data: one spike, two global
channels, a single sparse channel mapped to global channel 0; the dense
block holds the sparse value at channel 0 and the zero row at the
unlisted channel 1. -/
theorem get_features_scatter_witness :
    (get_features (fun _ _ => [0]) [[[5]]] [[0]] [0] [[1, 1 / 2]] 2 1 0).isSome ∧
      ([0] : List Nat).length ≤ 1000 ∧
      (([[[(5 : ℚ)], [0]]] : List (List (List ℚ))).getD 0 []).getD 1 [] =
        List.replicate 1 0 ∧
      (([[[(5 : ℚ)], [0]]] : List (List (List ℚ))).getD 0 []).getD
          (([0] : List Nat).getD 0 0) [] =
        (([[[(5 : ℚ)]]] : List (List (List ℚ))).getD (([0] : List Nat).getD 0 0) []).map
          (fun prow => prow.getD 0 0) := by
  have h := get_features_scatter (fun _ _ => [0]) [[[5]]] [[0]] [0] [[1, 1 / 2]] 2 1 0
    [0] [0] (by decide) (by decide) (by decide) (by decide) (by decide)
    (by decide) (by decide) (by decide)
  have h2 := h.2 ⟨[[[5], [0]]], [0], [0], [[1, 1 / 2]]⟩ (by decide)
  refine ⟨h.1, h2.2.1, ?_, ?_⟩
  · exact (h2.2.2.2 0 (by decide)).2.2.1 1 (by decide) (by decide)
  · exact (h2.2.2.2 0 (by decide)).2.2.2 0 (by decide)
